import Mathlib

/-!
Verification of the govee-h5055-monitor program (src/govee_thermometer/main.py)
against its natural-language specification.

The Python module keeps a global reading store
`temp_data : Dict[str, Dict[int, float]]` mapping a device address to a map
from probe id to the latest temperature.  We embed dictionaries as
association lists that keep the Python insertion order: updating an existing
key rewrites the value in place, a new key is appended at the end, and
lookup scans from the front.  Temperatures (Python floats) are idealized as
rationals; probe ids (Python small non-negative ints) as naturals.
-/

namespace Govee

/-- Temperatures: idealization of Python floats as rationals. -/
abbrev Temp := ℚ

/-- Inner dict of one device: probe id to latest temperature, insertion order. -/
abbrev ProbeMap := List (ℕ × Temp)

/-- The global `temp_data` store: device address to probe map, insertion order. -/
abbrev ReadingStore := List (String × ProbeMap)

/-- Dict read `ps[probe]` on the inner probe map. -/
def lookupProbe : ProbeMap → ℕ → Option Temp
  | [], _ => none
  | (k, v) :: rest, p => if k = p then some v else lookupProbe rest p

/-- Dict write `ps[probe] = temp`: rewrite an existing key in place, append a new one. -/
def setProbe : ProbeMap → ℕ → Temp → ProbeMap
  | [], p, t => [(p, t)]
  | (k, v) :: rest, p, t => if k = p then (k, t) :: rest else (k, v) :: setProbe rest p t

/-- Read `temp_data[device][probe]`, `none` when either key is missing. -/
def lookupReading : ReadingStore → String → ℕ → Option Temp
  | [], _, _ => none
  | (a, ps) :: rest, d, p => if a = d then lookupProbe ps p else lookupReading rest d p

/-- The guard of both update callbacks that inserts an empty probe dict when
    the device address is not yet a key of `temp_data`. -/
def ensureDevice : ReadingStore → String → ReadingStore
  | [], d => [(d, [])]
  | (a, ps) :: rest, d => if a = d then (a, ps) :: rest else (a, ps) :: ensureDevice rest d

/-- Dict write `temp_data[device][probe] = temp` (device key assumed ensured;
    a missing device is appended, matching dict semantics). -/
def storeSet : ReadingStore → String → ℕ → Temp → ReadingStore
  | [], d, p, t => [(d, [(p, t)])]
  | (a, ps) :: rest, d, p, t =>
      if a = d then (a, setProbe ps p t) :: rest else (a, ps) :: storeSet rest d p t

/-- Embedding of `TemperatureCapturingParser.update_temp_probe`: ensure the
    device key, then unconditionally store the temperature for the probe. -/
def update_temp_probe (s : ReadingStore) (addr : String) (temp : Temp) (probe : ℕ) :
    ReadingStore :=
  storeSet (ensureDevice s addr) addr probe temp

/-- Embedding of `TemperatureCapturingParser.update_temp_probe_with_alarm`:
    ensure the device key, then store the temperature only when it is
    non-null and strictly positive (`if temp is not None and temp > 0`). -/
def update_temp_probe_with_alarm (s : ReadingStore) (addr : String) (temp : Option Temp)
    (alarmTemp : Option Temp) (probe : ℕ) (lowAlarmTemp : Option Temp) : ReadingStore :=
  let s1 := ensureDevice s addr
  match temp with
  | some t => if 0 < t then storeSet s1 addr probe t else s1
  | none => s1

/-- One decoded probe update delivered by the external decoder: either the
    plain `update_temp_probe` callback or the alarm-bearing
    `update_temp_probe_with_alarm` callback. -/
inductive Upd where
  | plain (temp : Temp) (probe : ℕ)
  | alarm (temp : Option Temp) (alarmTemp : Option Temp) (probe : ℕ) (lowAlarmTemp : Option Temp)
  deriving DecidableEq

/-- Apply one decoded update for device `addr` to the store. -/
def applyUpd (s : ReadingStore) (addr : String) : Upd → ReadingStore
  | .plain t p => update_temp_probe s addr t p
  | .alarm t a p la => update_temp_probe_with_alarm s addr t a p la

/-- Apply a sequence of `(device, update)` events in order. -/
def applyUpds (s : ReadingStore) (us : List (String × Upd)) : ReadingStore :=
  us.foldl (fun s du => applyUpd s du.1 du.2) s

/-- Specification-side acceptance predicate of claim C1: the value an update
    contributes to the pair `(d, p)` when accepted, `none` otherwise.  Plain
    updates are always accepted, alarm-bearing ones only with a non-null
    temperature strictly greater than zero. -/
def acceptedValue (addr : String) (u : Upd) (d : String) (p : ℕ) : Option Temp :=
  match u with
  | .plain t q => if addr = d ∧ q = p then some t else none
  | .alarm t? _ q _ =>
      match t? with
      | some t => if addr = d ∧ q = p ∧ 0 < t then some t else none
      | none => none

/-- Specification-side value of the last accepted update for `(d, p)` in a
    sequence of events (later events take precedence). -/
def lastAccepted : List (String × Upd) → String → ℕ → Option Temp
  | [], _, _ => none
  | (a, u) :: rest, d, p =>
      match lastAccepted rest d p with
      | some t => some t
      | none => acceptedValue a u d p

theorem lookupProbe_setProbe (ps : ProbeMap) (p : ℕ) (t : Temp) (q : ℕ) :
    lookupProbe (setProbe ps p t) q = if p = q then some t else lookupProbe ps q := by
  induction ps with
  | nil =>
      by_cases h : p = q <;> simp [setProbe, lookupProbe, h]
  | cons kv rest ih =>
      obtain ⟨k, v⟩ := kv
      by_cases hkp : k = p
      · subst hkp
        by_cases hkq : k = q <;> simp [setProbe, lookupProbe, hkq]
      · by_cases hkq : k = q
        · subst hkq
          simp [setProbe, lookupProbe, hkp, Ne.symm hkp]
        · simp [setProbe, lookupProbe, hkp, hkq, ih]

theorem lookupReading_storeSet (s : ReadingStore) (a : String) (q : ℕ) (t : Temp)
    (d : String) (p : ℕ) :
    lookupReading (storeSet s a q t) d p =
      if a = d ∧ q = p then some t else lookupReading s d p := by
  induction s with
  | nil =>
      by_cases had : a = d
      · subst had
        by_cases hqp : q = p <;> simp [storeSet, lookupReading, lookupProbe, hqp]
      · simp [storeSet, lookupReading, had]
  | cons kv rest ih =>
      obtain ⟨k, ps⟩ := kv
      by_cases hka : k = a
      · subst hka
        by_cases hkd : k = d
        · subst hkd
          simp [storeSet, lookupReading, lookupProbe_setProbe]
        · simp [storeSet, lookupReading, hkd]
      · by_cases hkd : k = d
        · subst hkd
          simp [storeSet, lookupReading, hka, Ne.symm hka, ih]
        · simp [storeSet, lookupReading, hka, hkd, ih]

theorem lookupReading_ensureDevice (s : ReadingStore) (a d : String) (p : ℕ) :
    lookupReading (ensureDevice s a) d p = lookupReading s d p := by
  induction s with
  | nil =>
      by_cases had : a = d <;> simp [ensureDevice, lookupReading, lookupProbe, had]
  | cons kv rest ih =>
      obtain ⟨k, ps⟩ := kv
      by_cases hka : k = a
      · simp [ensureDevice, hka]
      · by_cases hkd : k = d
        · subst hkd
          simp [ensureDevice, lookupReading, hka, ih]
        · simp [ensureDevice, lookupReading, hka, hkd, ih]

theorem lookupReading_applyUpd (s : ReadingStore) (addr : String) (u : Upd)
    (d : String) (p : ℕ) :
    lookupReading (applyUpd s addr u) d p =
      match acceptedValue addr u d p with
      | some t => some t
      | none => lookupReading s d p := by
  cases u with
  | plain t q =>
      simp only [applyUpd, update_temp_probe, acceptedValue,
        lookupReading_storeSet, lookupReading_ensureDevice]
      by_cases h : addr = d ∧ q = p <;> simp [h]
  | alarm t? a q la =>
      cases t? with
      | none =>
          simp [applyUpd, update_temp_probe_with_alarm, acceptedValue,
            lookupReading_ensureDevice]
      | some t =>
          simp only [applyUpd, update_temp_probe_with_alarm, acceptedValue]
          by_cases hpos : 0 < t
          · simp only [hpos, if_true, lookupReading_storeSet, lookupReading_ensureDevice]
            by_cases h : addr = d ∧ q = p
            · simp [h, hpos]
            · have h' : ¬(addr = d ∧ q = p ∧ 0 < t) := by
                intro hc
                exact h ⟨hc.1, hc.2.1⟩
              simp [h, h']
          · have h' : ¬(addr = d ∧ q = p ∧ 0 < t) := by
              intro hc
              exact hpos hc.2.2
            simp [hpos, h', lookupReading_ensureDevice]

theorem lookupReading_applyUpds (us : List (String × Upd)) :
    ∀ (s : ReadingStore) (d : String) (p : ℕ),
      lookupReading (applyUpds s us) d p =
        match lastAccepted us d p with
        | some t => some t
        | none => lookupReading s d p := by
  induction us with
  | nil => intro s d p; simp [applyUpds, lastAccepted]
  | cons du rest ih =>
      intro s d p
      obtain ⟨a, u⟩ := du
      show lookupReading (applyUpds (applyUpd s a u) rest) d p = _
      rw [ih]
      rw [lookupReading_applyUpd]
      simp only [lastAccepted]
      cases lastAccepted rest d p <;> cases acceptedValue a u d p <;> simp

/-!
Decimal rendering.  Python builds CSV field names with an f-string of the
form probe_<id>;
we embed the decimal rendering of a natural number with a fuel-structural
digits function so that it evaluates in the kernel and its injectivity is
provable (distinct probe ids give distinct column names).
-/

/-- Little-endian base-10 digits, fuel-structural (`fuel ≥ n` suffices). -/
def digitsAux : ℕ → ℕ → List ℕ
  | 0, _ => []
  | _ + 1, 0 => []
  | fuel + 1, n + 1 => ((n + 1) % 10) :: digitsAux fuel ((n + 1) / 10)

/-- Little-endian base-10 digits of `n`. -/
def decDigits (n : ℕ) : List ℕ := digitsAux n n

/-- Value of a little-endian digit list. -/
def digitsVal : List ℕ → ℕ
  | [] => 0
  | d :: rest => d + 10 * digitsVal rest

/-- Decimal rendering of a natural number, as Python `str` produces it. -/
def natRepr (n : ℕ) : String :=
  if n = 0 then "0" else ((decDigits n).reverse.map Nat.digitChar).asString

theorem digitsVal_digitsAux : ∀ (fuel n : ℕ), n ≤ fuel → digitsVal (digitsAux fuel n) = n := by
  intro fuel
  induction fuel with
  | zero => intro n hn; interval_cases n; simp [digitsAux, digitsVal]
  | succ fuel ih =>
      intro n hn
      match n with
      | 0 => simp [digitsAux, digitsVal]
      | m + 1 =>
          have hdiv : (m + 1) / 10 ≤ fuel := by
            have h1 : (m + 1) / 10 < m + 1 := Nat.div_lt_self (Nat.succ_pos m) (by norm_num)
            omega
          simp only [digitsAux, digitsVal, ih _ hdiv]
          omega

theorem digitsVal_decDigits (n : ℕ) : digitsVal (decDigits n) = n :=
  digitsVal_digitsAux n n le_rfl

theorem decDigits_lt_ten : ∀ (fuel n : ℕ), ∀ d ∈ digitsAux fuel n, d < 10 := by
  intro fuel
  induction fuel with
  | zero => intro n d hd; simp [digitsAux] at hd
  | succ fuel ih =>
      intro n d hd
      match n with
      | 0 => simp [digitsAux] at hd
      | m + 1 =>
          simp only [digitsAux, List.mem_cons] at hd
          rcases hd with h | h
          · omega
          · exact ih _ d h

theorem digitChar_inj_lt : ∀ a < 10, ∀ b < 10, Nat.digitChar a = Nat.digitChar b → a = b := by
  decide

theorem map_digitChar_inj :
    ∀ (l1 l2 : List ℕ), (∀ x ∈ l1, x < 10) → (∀ x ∈ l2, x < 10) →
      l1.map Nat.digitChar = l2.map Nat.digitChar → l1 = l2 := by
  intro l1
  induction l1 with
  | nil => intro l2 _ _ h; cases l2 <;> simp_all
  | cons a rest ih =>
      intro l2 h1 h2 h
      cases l2 with
      | nil => simp at h
      | cons b rest2 =>
          simp only [List.map_cons, List.cons.injEq] at h
          have ha : a = b :=
            digitChar_inj_lt a (h1 a (by simp)) b (h2 b (by simp)) h.1
          have hr : rest = rest2 :=
            ih rest2 (fun x hx => h1 x (by simp [hx])) (fun x hx => h2 x (by simp [hx])) h.2
          rw [ha, hr]

theorem natRepr_injective : Function.Injective natRepr := by
  intro a b h
  have hdata : (natRepr a).data = (natRepr b).data := by rw [h]
  by_cases ha : a = 0 <;> by_cases hb : b = 0
  · rw [ha, hb]
  · exfalso
    simp only [natRepr, ha, hb, if_true, if_false] at hdata
    have : ['0'] = (decDigits b).reverse.map Nat.digitChar := hdata
    have hd : (decDigits b).reverse = [0] := by
      have hlt : ∀ x ∈ (decDigits b).reverse, x < 10 := by
        intro x hx
        exact decDigits_lt_ten b b x (List.mem_reverse.mp hx)
      have := map_digitChar_inj [0] ((decDigits b).reverse) (by simp) hlt
        (by simp [this.symm, Nat.digitChar])
      exact this.symm
    have hdd : decDigits b = [0] := by
      have := congrArg List.reverse hd
      simpa using this
    have : b = 0 := by
      have := digitsVal_decDigits b
      rw [hdd] at this
      simpa [digitsVal] using this.symm
    exact hb this
  · exfalso
    simp only [natRepr, ha, hb, if_true, if_false] at hdata
    have : (decDigits a).reverse.map Nat.digitChar = ['0'] := hdata
    have hd : (decDigits a).reverse = [0] := by
      have hlt : ∀ x ∈ (decDigits a).reverse, x < 10 := by
        intro x hx
        exact decDigits_lt_ten a a x (List.mem_reverse.mp hx)
      exact map_digitChar_inj ((decDigits a).reverse) [0] hlt (by simp)
        (by simp [this, Nat.digitChar])
    have hdd : decDigits a = [0] := by
      have := congrArg List.reverse hd
      simpa using this
    have : a = 0 := by
      have := digitsVal_decDigits a
      rw [hdd] at this
      simpa [digitsVal] using this.symm
    exact ha this
  · simp only [natRepr, ha, hb, if_false] at hdata
    have hmap : (decDigits a).reverse.map Nat.digitChar
        = (decDigits b).reverse.map Nat.digitChar := hdata
    have hlt1 : ∀ x ∈ (decDigits a).reverse, x < 10 := fun x hx =>
      decDigits_lt_ten a a x (List.mem_reverse.mp hx)
    have hlt2 : ∀ x ∈ (decDigits b).reverse, x < 10 := fun x hx =>
      decDigits_lt_ten b b x (List.mem_reverse.mp hx)
    have hrev := map_digitChar_inj _ _ hlt1 hlt2 hmap
    have hdig : decDigits a = decDigits b := by
      have := congrArg List.reverse hrev
      simpa using this
    have := congrArg digitsVal hdig
    rwa [digitsVal_decDigits, digitsVal_decDigits] at this

theorem natRepr_ne_empty (n : ℕ) : natRepr n ≠ "" := by
  intro h
  have hdata := congrArg String.data h
  by_cases hn : n = 0
  · simp [natRepr, hn] at hdata
  · simp only [natRepr, hn, if_false] at hdata
    have hmap : (decDigits n).reverse.map Nat.digitChar = [] := hdata
    have hrev : (decDigits n).reverse = [] := List.map_eq_nil_iff.mp hmap
    have hnil : decDigits n = [] := by simpa using congrArg List.reverse hrev
    have hv := digitsVal_decDigits n
    rw [hnil] at hv
    exact hn (by simpa [digitsVal] using hv.symm)

theorem natRepr_length_pos (n : ℕ) : 1 ≤ (natRepr n).length := by
  by_contra hcon
  push_neg at hcon
  have h0 : (natRepr n).data.length = 0 := by
    have hl : (natRepr n).length = 0 := by omega
    exact hl
  have hdata : (natRepr n).data = [] := List.eq_nil_of_length_eq_zero h0
  exact natRepr_ne_empty n (String.ext (by rw [hdata]))

/-!
CSV persister (`print_temperature_readings`).  The destination file is
modelled as `Option (List Entry)`: `none` for a file that does not exist
(`os.path.isfile` false) and `some lines` for an existing file, each written
line tagged as the header line or a data row.
-/

/-- The column name probe_<id> built by the persister f-string. -/
def probeField (p : ℕ) : String := "probe_" ++ natRepr p

/-- Rendering of a temperature with the Python one-decimal f-string (one decimal
    place), idealized to exact rounding of the rational to the nearest
    tenth. -/
def formatTemp (t : Temp) : String :=
  let n : ℤ := round (t * 10)
  let sign := if n < 0 then "-" else ""
  sign ++ natRepr (n.natAbs / 10) ++ "." ++ natRepr (n.natAbs % 10)

/-- Insertion into a strictly sorted list of probe ids, dropping duplicates;
    folding it over all observed ids embeds the Python sorted(all_probe_ids)
    over the set `all_probe_ids`. -/
def insertSorted (p : ℕ) : List ℕ → List ℕ
  | [] => [p]
  | q :: rest =>
      if p < q then p :: q :: rest
      else if p = q then q :: rest
      else q :: insertSorted p rest

/-- All probe ids observed across all devices of the store (with repeats),
    embedding the loop `for dev_probes in temp_data.values(): all_probe_ids.update(...)`. -/
def allProbeIdsList (s : ReadingStore) : List ℕ :=
  s.flatMap (fun dp => dp.2.map Prod.fst)

/-- The distinct observed probe ids in ascending order: `sorted(all_probe_ids)`. -/
def sortedProbeIds (s : ReadingStore) : List ℕ :=
  (allProbeIdsList s).foldl (fun acc p => insertSorted p acc) []

/-- The DictWriter fieldnames computed for one write:
    the literal columns t_plus and device followed by probe_<id> for each id
    in sorted(all_probe_ids). -/
def fieldnamesOf (s : ReadingStore) : List String :=
  "t_plus" :: "device" :: (sortedProbeIds s).map probeField

/-- Insertion step for sorting the probe entries of one device by probe id
    (`sorted(probes.items())`; keys of a dict are distinct). -/
def insertProbe : List (ℕ × Temp) → ℕ × Temp → List (ℕ × Temp)
  | [], pv => [pv]
  | (q, w) :: rest, pv =>
      if pv.1 < q then pv :: (q, w) :: rest
      else if pv.1 = q then (pv.1, pv.2) :: rest
      else (q, w) :: insertProbe rest pv

/-- The probe entries of one device sorted ascending by probe id. -/
def sortProbes (ps : List (ℕ × Temp)) : List (ℕ × Temp) :=
  ps.foldl insertProbe []

/-- The `row_data` dict for one device: `t_plus`, `device`, then one
    `probe_<id>` entry per probe, in ascending probe order. -/
def rowData (tplus dev : String) (ps : List (ℕ × Temp)) : List (String × String) :=
  ("t_plus", tplus) :: ("device", dev) ::
    (sortProbes ps).map (fun pv => (probeField pv.1, formatTemp pv.2))

/-- Dict lookup by string key. -/
def lookupStr : List (String × String) → String → Option String
  | [], _ => none
  | (k, v) :: rest, f => if k = f then some v else lookupStr rest f

/-- The cell DictWriter emits for field `f`: the value of the row, or the
    empty-string restval default when the row has no such key. -/
def renderCell (rd : List (String × String)) (f : String) : String :=
  (lookupStr rd f).getD ""

/-- The complete data row DictWriter writes for one device: one cell per
    fieldname. -/
def rowFor (s : ReadingStore) (tplus dev : String) (ps : List (ℕ × Temp)) : List String :=
  (fieldnamesOf s).map (renderCell (rowData tplus dev ps))

/-- One line of the CSV file: the header line or a data row. -/
inductive Entry where
  | header (fields : List String)
  | row (cells : List String)
  deriving DecidableEq

/-- The body of the per-device loop of `print_temperature_readings`: skip a
    device with no probes; otherwise check `os.path.isfile`, open in append
    mode, write the header first when the file did not exist, then the row. -/
def writeDeviceRow (s : ReadingStore) (tplus : String) (file : Option (List Entry))
    (dp : String × List (ℕ × Temp)) : Option (List Entry) :=
  if dp.2.isEmpty then file
  else
    match file with
    | none => some [Entry.header (fieldnamesOf s), Entry.row (rowFor s tplus dp.1 dp.2)]
    | some ls => some (ls ++ [Entry.row (rowFor s tplus dp.1 dp.2)])

/-- Effect of one `print_temperature_readings` call on the CSV file: an empty
    store returns after a notice; otherwise one pass of the device loop. -/
def snapshotFile (s : ReadingStore) (tplus : String) (file : Option (List Entry)) :
    Option (List Entry) :=
  if s.isEmpty then file
  else s.foldl (writeDeviceRow s tplus) file

/-- The data rows one snapshot writes: one row per device holding at least
    one probe reading. -/
def rowsWritten (s : ReadingStore) (tplus : String) : List (List String) :=
  (s.filter (fun dp => !dp.2.isEmpty)).map (fun dp => rowFor s tplus dp.1 dp.2)

/-- A sequence of snapshot calls applied to a file state. -/
def applySnaps (file : Option (List Entry)) (ops : List (ReadingStore × String)) :
    Option (List Entry) :=
  ops.foldl (fun f op => snapshotFile op.1 op.2 f) file

theorem probeField_length (p : ℕ) : 7 ≤ (probeField p).length := by
  have h := natRepr_length_pos p
  have h6 : ("probe_" : String).length = 6 := rfl
  simp only [probeField, String.length_append]
  omega

theorem probeField_ne_tplus (p : ℕ) : probeField p ≠ "t_plus" := by
  intro h
  have hl := congrArg String.length h
  have h7 := probeField_length p
  have h6 : ("t_plus" : String).length = 6 := rfl
  omega

theorem probeField_ne_device (p : ℕ) : probeField p ≠ "device" := by
  intro h
  have hl := congrArg String.length h
  have h7 := probeField_length p
  have h6 : ("device" : String).length = 6 := rfl
  omega

theorem probeField_injective : Function.Injective probeField := by
  intro a b h
  apply natRepr_injective
  have hd : ("probe_" : String).data ++ (natRepr a).data
      = ("probe_" : String).data ++ (natRepr b).data := congrArg String.data h
  exact String.ext (List.append_cancel_left hd)

theorem insertSorted_mem (p : ℕ) (l : List ℕ) (x : ℕ) :
    x ∈ insertSorted p l ↔ x = p ∨ x ∈ l := by
  induction l with
  | nil => simp [insertSorted]
  | cons q rest ih =>
      by_cases h1 : p < q
      · simp [insertSorted, h1]
      · by_cases h2 : p = q
        · subst h2
          simp only [insertSorted, h1, if_false, if_true]
          constructor
          · intro hx; exact Or.inr hx
          · rintro (rfl | hx)
            · exact List.mem_cons_self _ _
            · exact hx
        · simp only [insertSorted, h1, h2, if_false, List.mem_cons, ih]
          tauto

theorem insertSorted_sorted (p : ℕ) (l : List ℕ) (h : List.Sorted (· < ·) l) :
    List.Sorted (· < ·) (insertSorted p l) := by
  induction l with
  | nil => simp [insertSorted]
  | cons q rest ih =>
      have hq : ∀ x ∈ rest, q < x := fun x hx => (List.sorted_cons.mp h).1 x hx
      have hrest : List.Sorted (· < ·) rest := (List.sorted_cons.mp h).2
      by_cases h1 : p < q
      · have : ∀ x ∈ q :: rest, p < x := by
          intro x hx
          rcases List.mem_cons.mp hx with rfl | hx
          · exact h1
          · exact lt_trans h1 (hq x hx)
        simp only [insertSorted, h1, if_true]
        exact List.sorted_cons.mpr ⟨this, h⟩
      · by_cases h2 : p = q
        · simpa [insertSorted, h1, h2] using h
        · have hqp : q < p := by omega
          simp only [insertSorted, h1, h2, if_false]
          refine List.sorted_cons.mpr ⟨?_, ih hrest⟩
          intro x hx
          rcases (insertSorted_mem p rest x).mp hx with rfl | hx
          · exact hqp
          · exact hq x hx

theorem foldl_insertSorted_mem (l : List ℕ) :
    ∀ (acc : List ℕ) (x : ℕ),
      x ∈ l.foldl (fun acc p => insertSorted p acc) acc ↔ x ∈ acc ∨ x ∈ l := by
  induction l with
  | nil => intro acc x; simp
  | cons p rest ih =>
      intro acc x
      simp only [List.foldl_cons, ih, insertSorted_mem, List.mem_cons]
      tauto

theorem foldl_insertSorted_sorted (l : List ℕ) :
    ∀ (acc : List ℕ), List.Sorted (· < ·) acc →
      List.Sorted (· < ·) (l.foldl (fun acc p => insertSorted p acc) acc) := by
  induction l with
  | nil => intro acc h; exact h
  | cons p rest ih =>
      intro acc h
      exact ih _ (insertSorted_sorted p acc h)

theorem sortedProbeIds_sorted (s : ReadingStore) :
    List.Sorted (· < ·) (sortedProbeIds s) :=
  foldl_insertSorted_sorted _ [] (by simp)

theorem sortedProbeIds_mem (s : ReadingStore) (x : ℕ) :
    x ∈ sortedProbeIds s ↔ x ∈ allProbeIdsList s := by
  unfold sortedProbeIds
  rw [foldl_insertSorted_mem]
  simp

theorem mem_allProbeIdsList (s : ReadingStore) (x : ℕ) :
    x ∈ allProbeIdsList s ↔ ∃ dev ps, (dev, ps) ∈ s ∧ ∃ v, (x, v) ∈ ps := by
  unfold allProbeIdsList
  simp only [List.mem_flatMap, List.mem_map]
  constructor
  · rintro ⟨⟨dev, ps⟩, hmem, ⟨⟨p, v⟩, hpv, rfl⟩⟩
    exact ⟨dev, ps, hmem, v, hpv⟩
  · rintro ⟨dev, ps, hmem, v, hpv⟩
    exact ⟨(dev, ps), hmem, (x, v), hpv, rfl⟩

theorem insertProbe_fst_mem (l : List (ℕ × Temp)) (pv : ℕ × Temp) (x : ℕ) :
    x ∈ (insertProbe l pv).map Prod.fst → x = pv.1 ∨ x ∈ l.map Prod.fst := by
  induction l with
  | nil => simp [insertProbe]
  | cons qw rest ih =>
      obtain ⟨q, w⟩ := qw
      by_cases h1 : pv.1 < q
      · intro hx
        simp only [insertProbe, h1, if_true, List.map_cons, List.mem_cons] at hx
        simp only [List.map_cons, List.mem_cons]
        tauto
      · by_cases h2 : pv.1 = q
        · intro hx
          simp only [insertProbe, h1, h2, lt_self_iff_false, if_false, if_true,
            List.map_cons, List.mem_cons] at hx
          simp only [List.map_cons, List.mem_cons]
          tauto
        · intro hx
          simp only [insertProbe, h1, h2, if_false, List.map_cons, List.mem_cons] at hx
          simp only [List.map_cons, List.mem_cons]
          rcases hx with rfl | hx
          · tauto
          · rcases ih hx with h | h
            · exact Or.inl h
            · tauto

theorem sortProbes_fst_mem (ps : List (ℕ × Temp)) (x : ℕ) :
    x ∈ (sortProbes ps).map Prod.fst → x ∈ ps.map Prod.fst := by
  unfold sortProbes
  suffices h : ∀ (acc : List (ℕ × Temp)),
      x ∈ (ps.foldl insertProbe acc).map Prod.fst →
        x ∈ acc.map Prod.fst ∨ x ∈ ps.map Prod.fst by
    intro hx
    rcases h [] hx with h0 | h0
    · simp at h0
    · exact h0
  induction ps with
  | nil => intro acc hx; exact Or.inl hx
  | cons pv rest ih =>
      intro acc hx
      simp only [List.foldl_cons] at hx
      rcases ih _ hx with h0 | h0
      · rcases insertProbe_fst_mem acc pv x h0 with h1 | h1
        · exact Or.inr (by simp [h1])
        · exact Or.inl h1
      · exact Or.inr (by simp [h0])

theorem lookupStr_map_probe_none (l : List (ℕ × Temp)) (q : ℕ)
    (h : ∀ pv ∈ l, pv.1 ≠ q) :
    lookupStr (l.map fun pv => (probeField pv.1, formatTemp pv.2)) (probeField q) = none := by
  induction l with
  | nil => rfl
  | cons pv rest ih =>
      have hne : probeField pv.1 ≠ probeField q := by
        intro he
        exact h pv (by simp) (probeField_injective he)
      simp only [List.map_cons, lookupStr, hne, if_false]
      exact ih (fun x hx => h x (by simp [hx]))

theorem renderCell_rowData_tplus (tplus dev : String) (ps : List (ℕ × Temp)) :
    renderCell (rowData tplus dev ps) "t_plus" = tplus := by
  simp [renderCell, rowData, lookupStr]

theorem renderCell_rowData_device (tplus dev : String) (ps : List (ℕ × Temp)) :
    renderCell (rowData tplus dev ps) "device" = dev := by
  have h : ("t_plus" : String) ≠ "device" := by decide
  simp [renderCell, rowData, lookupStr, h]

theorem renderCell_rowData_probe_missing (tplus dev : String) (ps : List (ℕ × Temp))
    (q : ℕ) (h : ∀ v, (q, v) ∉ ps) :
    renderCell (rowData tplus dev ps) (probeField q) = "" := by
  have h1 : ("t_plus" : String) ≠ probeField q := fun he => probeField_ne_tplus q he.symm
  have h2 : ("device" : String) ≠ probeField q := fun he => probeField_ne_device q he.symm
  have h3 : ∀ pv ∈ sortProbes ps, pv.1 ≠ q := by
    intro pv hpv he
    have hq : q ∈ (sortProbes ps).map Prod.fst := by
      exact List.mem_map.mpr ⟨pv, hpv, he⟩
    have hq2 := sortProbes_fst_mem ps q hq
    obtain ⟨⟨p, v⟩, hmem, hfst⟩ := List.mem_map.mp hq2
    exact h v (by simpa [← hfst] using hmem)
  simp only [renderCell, rowData, lookupStr, h1, h2, if_false]
  rw [lookupStr_map_probe_none (sortProbes ps) q h3]
  rfl

theorem foldl_writeDeviceRow_some (s : ReadingStore) (tplus : String) :
    ∀ (l : List (String × List (ℕ × Temp))) (ls : List Entry),
      l.foldl (writeDeviceRow s tplus) (some ls)
        = some (ls ++ (l.filter (fun dp => !dp.2.isEmpty)).map
            (fun dp => Entry.row (rowFor s tplus dp.1 dp.2))) := by
  intro l
  induction l with
  | nil => intro ls; simp
  | cons dp rest ih =>
      intro ls
      by_cases h : dp.2.isEmpty
      · simp only [List.foldl_cons, writeDeviceRow, h, if_true, List.filter_cons,
          Bool.not_eq_true', ih]
        simp [h]
      · rw [List.foldl_cons]
        have hw : writeDeviceRow s tplus (some ls) dp
            = some (ls ++ [Entry.row (rowFor s tplus dp.1 dp.2)]) := by
          simp [writeDeviceRow, h]
        rw [hw, ih]
        simp [List.filter_cons, h]

theorem foldl_writeDeviceRow_none (s : ReadingStore) (tplus : String) :
    ∀ (l : List (String × List (ℕ × Temp))),
      l.foldl (writeDeviceRow s tplus) none
        = if l.filter (fun dp => !dp.2.isEmpty) = [] then none
          else some (Entry.header (fieldnamesOf s)
            :: (l.filter (fun dp => !dp.2.isEmpty)).map
              (fun dp => Entry.row (rowFor s tplus dp.1 dp.2))) := by
  intro l
  induction l with
  | nil => simp
  | cons dp rest ih =>
      by_cases h : dp.2.isEmpty
      · simp only [List.foldl_cons, writeDeviceRow, h, if_true, ih, List.filter_cons]
        simp [h]
      · rw [List.foldl_cons]
        have hw : writeDeviceRow s tplus none dp
            = some [Entry.header (fieldnamesOf s), Entry.row (rowFor s tplus dp.1 dp.2)] := by
          simp [writeDeviceRow, h]
        rw [hw, foldl_writeDeviceRow_some]
        simp [List.filter_cons, h]

theorem snapshotFile_some (s : ReadingStore) (tplus : String) (ls : List Entry) :
    snapshotFile s tplus (some ls) = some (ls ++ (rowsWritten s tplus).map Entry.row) := by
  unfold snapshotFile rowsWritten
  by_cases h : s.isEmpty
  · have : s = [] := List.isEmpty_iff.mp h
    simp [this]
  · simp only [h, if_false, foldl_writeDeviceRow_some, List.map_map]
    rfl

theorem snapshotFile_none (s : ReadingStore) (tplus : String) :
    snapshotFile s tplus none
      = if rowsWritten s tplus = [] then none
        else some (Entry.header (fieldnamesOf s) :: (rowsWritten s tplus).map Entry.row) := by
  unfold snapshotFile rowsWritten
  by_cases h : s.isEmpty
  · have : s = [] := List.isEmpty_iff.mp h
    simp [this]
  · simp only [h, if_false, foldl_writeDeviceRow_none, List.map_map]
    by_cases hf : s.filter (fun dp => !dp.2.isEmpty) = []
    · simp [hf]
    · have hf2 : ¬(s.filter (fun dp => !dp.2.isEmpty)).map
          (fun dp => rowFor s tplus dp.1 dp.2) = [] := by
        simpa using hf
      simp only [hf, hf2, if_false]
      rfl

theorem rowFor_head (s : ReadingStore) (tplus dev : String) (ps : List (ℕ × Temp)) :
    (rowFor s tplus dev ps).head? = some tplus := by
  simp [rowFor, fieldnamesOf, renderCell_rowData_tplus]

theorem renderCell_rowData_time_irrelevant (t1 t2 dev : String) (ps : List (ℕ × Temp))
    (f : String) (hf : f ≠ "t_plus") :
    renderCell (rowData t1 dev ps) f = renderCell (rowData t2 dev ps) f := by
  have h : ("t_plus" : String) ≠ f := fun he => hf he.symm
  simp [renderCell, rowData, lookupStr, h]

theorem rowFor_drop_one (s : ReadingStore) (t1 t2 dev : String) (ps : List (ℕ × Temp)) :
    (rowFor s t1 dev ps).drop 1 = (rowFor s t2 dev ps).drop 1 := by
  simp only [rowFor, fieldnamesOf, List.map_cons, List.drop_succ_cons, List.drop_zero]
  rw [renderCell_rowData_time_irrelevant t1 t2 dev ps "device" (by decide)]
  congr 1
  apply List.map_congr_left
  intro f hf
  obtain ⟨p, _, rfl⟩ := List.mem_map.mp hf
  exact renderCell_rowData_time_irrelevant t1 t2 dev ps _ (probeField_ne_tplus p)

/-!
Elapsed-time formatting (`format_elapsed_time`).  Elapsed seconds (a Python
float) are idealized as a rational.  The Python `x % y` for positive `y` is
`x - y * floor(x / y)`, `x // y` on floats is floor division, and the
`int(...)` conversions in the source are applied to values that are already
integral or non-negative, where truncation agrees with the floor.
-/

/-- The Python `x % y` for a positive modulus. -/
def pythonMod (x y : ℚ) : ℚ := x - y * ⌊x / y⌋

/-- The Python zero-padding format of width two: pad a one-digit
    non-negative value with a zero. -/
def pad2 (n : ℤ) : String :=
  if 0 ≤ n ∧ n < 10 then "0" ++ toString n else toString n

/-- Embedding of `format_elapsed_time` applied to the elapsed seconds:
    hours, a colon, two-digit minutes, a colon, two-digit seconds. -/
def format_elapsed_time (elapsed : ℚ) : String :=
  let elapsed_hours : ℤ := ⌊elapsed / 3600⌋
  let elapsed_minutes : ℤ := ⌊pythonMod elapsed 3600 / 60⌋
  let display_seconds : ℤ := ⌊pythonMod elapsed 60⌋
  toString elapsed_hours ++ ":" ++ pad2 elapsed_minutes ++ ":" ++ pad2 display_seconds

theorem pad2_length_of_lt : ∀ k : ℕ, k < 60 → (pad2 (k : ℤ)).length = 2 := by
  decide

theorem pad2_length (n : ℤ) (h0 : 0 ≤ n) (h60 : n < 60) : (pad2 n).length = 2 := by
  lift n to ℕ using h0 with k
  exact pad2_length_of_lt k (by exact_mod_cast h60)

theorem format_elapsed_time_decomposition (e : ℚ) (he : 0 ≤ e) :
    ∃ h m s : ℤ, 0 ≤ h ∧ 0 ≤ m ∧ m < 60 ∧ 0 ≤ s ∧ s < 60 ∧
      3600 * h + 60 * m + s = ⌊e⌋ ∧
      format_elapsed_time e = toString h ++ ":" ++ pad2 m ++ ":" ++ pad2 s ∧
      (pad2 m).length = 2 ∧ (pad2 s).length = 2 := by
  set h : ℤ := ⌊e / 3600⌋ with hh_def
  set m : ℤ := ⌊pythonMod e 3600 / 60⌋ with hm_def
  set s : ℤ := ⌊pythonMod e 60⌋ with hs_def
  set n : ℤ := ⌊e⌋ with hn_def
  set k : ℤ := ⌊e / 60⌋ with hk_def
  have h3600 : (0:ℚ) < 3600 := by norm_num
  have h60 : (0:ℚ) < 60 := by norm_num
  have hh1 : (h:ℚ) * 3600 ≤ e := (le_div_iff h3600).mp (Int.floor_le (e / 3600))
  have hh2 : e < ((h:ℚ) + 1) * 3600 := by
    have := Int.lt_floor_add_one (e / 3600)
    have h2 := (div_lt_iff h3600).mp this
    push_cast at h2 ⊢
    linarith
  have hr_eq : pythonMod e 3600 = e - 3600 * (h:ℚ) := by
    simp [pythonMod, hh_def]
  have hr1 : (0:ℚ) ≤ pythonMod e 3600 := by rw [hr_eq]; linarith
  have hr2 : pythonMod e 3600 < 3600 := by rw [hr_eq]; linarith
  have hm1 : (m:ℚ) * 60 ≤ pythonMod e 3600 :=
    (le_div_iff h60).mp (Int.floor_le (pythonMod e 3600 / 60))
  have hm2 : pythonMod e 3600 < ((m:ℚ) + 1) * 60 := by
    have := Int.lt_floor_add_one (pythonMod e 3600 / 60)
    have h2 := (div_lt_iff h60).mp this
    push_cast at h2 ⊢
    linarith
  have hk1 : (k:ℚ) * 60 ≤ e := (le_div_iff h60).mp (Int.floor_le (e / 60))
  have hk2 : e < ((k:ℚ) + 1) * 60 := by
    have := Int.lt_floor_add_one (e / 60)
    have h2 := (div_lt_iff h60).mp this
    push_cast at h2 ⊢
    linarith
  have hs_eq : s = n - 60 * k := by
    rw [hs_def, hn_def]
    have h1 : pythonMod e 60 = e - ((60 * k : ℤ) : ℚ) := by
      rw [pythonMod, ← hk_def]
      push_cast
      ring
    rw [h1, Int.floor_sub_int]
  have hA1 : 3600 * h + 60 * m ≤ n := by
    rw [hn_def]
    apply Int.le_floor.mpr
    push_cast
    rw [hr_eq] at hm1
    linarith
  have hA2 : n < 3600 * h + 60 * m + 60 := by
    have : e < ((3600 * h + 60 * m + 60 : ℤ) : ℚ) := by
      push_cast
      rw [hr_eq] at hm2
      linarith
    exact Int.floor_lt.mpr this
  have hB1 : 60 * k ≤ n := by
    rw [hn_def]
    apply Int.le_floor.mpr
    push_cast
    linarith
  have hB2 : n < 60 * k + 60 := by
    have : e < ((60 * k + 60 : ℤ) : ℚ) := by
      push_cast
      linarith
    exact Int.floor_lt.mpr this
  have hm_lo : 0 ≤ m := by
    rw [hm_def]
    apply Int.le_floor.mpr
    have := div_nonneg hr1 (le_of_lt h60)
    simpa using this
  have hm_hi : m < 60 := by
    rw [hm_def]
    apply Int.floor_lt.mpr
    rw [div_lt_iff h60]
    push_cast
    linarith
  have hh_lo : 0 ≤ h := by
    rw [hh_def]
    apply Int.le_floor.mpr
    have := div_nonneg he (le_of_lt h3600)
    simpa using this
  have hs_lo : 0 ≤ s := by omega
  have hs_hi : s < 60 := by omega
  refine ⟨h, m, s, hh_lo, hm_lo, hm_hi, hs_lo, hs_hi, by omega, rfl,
    pad2_length m hm_lo hm_hi, pad2_length s hs_lo hs_hi⟩

/-!
Advertisement processing and the scan loops.  The external BLE scanning
facility and the govee-ble decoder are black boxes: an advertisement is
modelled by the classification the decoder produces for it (device type) and
the probe-update callbacks it triggers (`updates`).  The module globals
`temp_data`, `processed_devices`, `found_h5055`, `h5055_address`, together
with the CSV output file, form the program state `St`.
-/

/-- One received advertisement, as the decoder interprets it: the sender
    address, the decoded device type, and the probe updates the decoder
    pushes through the parser callbacks. -/
structure Adv where
  address : String
  deviceType : String
  updates : List Upd
  deriving DecidableEq

/-- The program state: module globals plus the CSV file. -/
structure St where
  temp_data : ReadingStore
  processed : List String
  found_h5055 : Bool
  h5055_address : Option String
  csv : Option (List Entry)
  deriving DecidableEq

/-- Embedding of `process_advertisement`: the decoder `_start_update` runs
    the probe-update callbacks for every advertisement (whatever the device
    type), then the H5055 check may set the found flag and lock the address. -/
def process_advertisement (st : St) (a : Adv) : St :=
  let st1 := { st with
    temp_data := a.updates.foldl (fun s u => applyUpd s a.address u) st.temp_data }
  if a.deviceType = "H5055" ∧ a.address ∉ st1.processed then
    { st1 with
      processed := a.address :: st1.processed
      found_h5055 := true
      h5055_address := some a.address }
  else st1

/-- Outcome of one invocation of the scanning facility: either it delivers a
    list of advertisements, or it raises after having delivered a prefix of
    them (an error at `start` delivers none). -/
inductive ScanOutcome where
  | ok (ads : List Adv)
  | err (adsBefore : List Adv)
  deriving DecidableEq

/-- Embedding of `scan_for_devices`: clear `processed_devices`, process every
    delivered advertisement, and return whether an H5055 was found; the
    `try/except` around the scan catches a facility error, logs it, and
    returns `False`. -/
def scan_for_devices (st : St) (oc : ScanOutcome) : St × Bool :=
  let st0 := { st with processed := [] }
  match oc with
  | .ok ads =>
      let st1 := ads.foldl process_advertisement st0
      (st1, st1.found_h5055)
  | .err ads =>
      let st1 := ads.foldl process_advertisement st0
      (st1, false)

/-- Embedding of `scan_specific_device`: the callback ignores advertisements
    from other addresses; a facility error is caught and logged, keeping
    whatever the callbacks already delivered. -/
def scan_specific_device (st : St) (target : String) (oc : ScanOutcome) : St :=
  match oc with
  | .ok ads => (ads.filter (fun a => a.address == target)).foldl process_advertisement st
  | .err ads => (ads.filter (fun a => a.address == target)).foldl process_advertisement st

/-- Embedding of `print_temperature_readings` as a state transformer: it only
    reads `temp_data` and appends to the CSV file (`tplus` is the formatted
    elapsed time computed from the clock). -/
def print_temperature_readings (tplus : String) (st : St) : St :=
  { st with csv := snapshotFile st.temp_data tplus st.csv }

/-- Phase of `main_loop`: the discovery `while not found_h5055` loop or the
    monitoring `while True` loop. -/
inductive Phase where
  | searching
  | monitoring
  deriving DecidableEq

/-- The scan a loop iteration performs. -/
inductive LoopEvent where
  | discoveryScan
  | monitorScan
  deriving DecidableEq

/-- One iteration of `main_loop`, abstracted over its scan result: a
    searching iteration runs `scan_for_devices` (a discovery scan) and
    leaves the loop exactly when it reports found; a monitoring iteration
    runs `scan_specific_device` and stays in monitoring forever. -/
def loopStep : Phase → Bool → Phase × LoopEvent
  | .searching, found => (if found then .monitoring else .searching, .discoveryScan)
  | .monitoring, _ => (.monitoring, .monitorScan)

/-- Phase reached after a sequence of iteration results. -/
def runPhase (p : Phase) (inputs : List Bool) : Phase :=
  inputs.foldl (fun ph i => (loopStep ph i).1) p

/-- Scans performed along a sequence of iteration results. -/
def runEvents : Phase → List Bool → List LoopEvent
  | _, [] => []
  | p, i :: rest => (loopStep p i).2 :: runEvents (loopStep p i).1 rest

theorem runPhase_monitoring (inputs : List Bool) :
    runPhase Phase.monitoring inputs = Phase.monitoring := by
  induction inputs with
  | nil => rfl
  | cons i rest ih => simpa [runPhase, loopStep] using ih

theorem runEvents_monitoring (inputs : List Bool) :
    runEvents Phase.monitoring inputs = inputs.map (fun _ => LoopEvent.monitorScan) := by
  induction inputs with
  | nil => rfl
  | cons i rest ih => simp [runEvents, loopStep, ih]

theorem runPhase_append (p : Phase) (l1 l2 : List Bool) :
    runPhase p (l1 ++ l2) = runPhase (runPhase p l1) l2 := by
  simp [runPhase, List.foldl_append]

theorem runEvents_append (p : Phase) (l1 l2 : List Bool) :
    runEvents p (l1 ++ l2) = runEvents p l1 ++ runEvents (runPhase p l1) l2 := by
  induction l1 generalizing p with
  | nil => rfl
  | cons i rest ih => simp [runEvents, runPhase, ih, List.foldl_cons]

theorem runPhase_after_found (pre : List Bool) :
    runPhase Phase.searching (pre ++ [true]) = Phase.monitoring := by
  rw [runPhase_append]
  cases hp : runPhase Phase.searching pre <;> simp [runPhase, loopStep]

theorem applyUpds_append (s : ReadingStore) (l1 l2 : List (String × Upd)) :
    applyUpds s (l1 ++ l2) = applyUpds (applyUpds s l1) l2 := by
  simp [applyUpds, List.foldl_append]

theorem process_advertisement_temp_data (st : St) (a : Adv) :
    (process_advertisement st a).temp_data
      = applyUpds st.temp_data (a.updates.map fun u => (a.address, u)) := by
  have hfold : applyUpds st.temp_data (a.updates.map fun u => (a.address, u))
      = a.updates.foldl (fun s u => applyUpd s a.address u) st.temp_data := by
    simp [applyUpds, List.foldl_map]
  rw [hfold]
  unfold process_advertisement
  by_cases hc : a.deviceType = "H5055" ∧ a.address ∉ st.processed <;> simp [hc]

theorem foldl_process_temp_data :
    ∀ (ads : List Adv) (st : St),
      (ads.foldl process_advertisement st).temp_data
        = applyUpds st.temp_data (ads.flatMap fun a => a.updates.map fun u => (a.address, u)) := by
  intro ads
  induction ads with
  | nil => intro st; simp [applyUpds]
  | cons a rest ih =>
      intro st
      simp only [List.foldl_cons, List.flatMap_cons, ih, applyUpds_append,
        process_advertisement_temp_data]

theorem applySnaps_some (ops : List (ReadingStore × String)) :
    ∀ ls : List Entry, ∃ rows : List (List String),
      applySnaps (some ls) ops = some (ls ++ rows.map Entry.row) := by
  induction ops with
  | nil => intro ls; exact ⟨[], by simp [applySnaps]⟩
  | cons op rest ih =>
      intro ls
      obtain ⟨rows2, hr2⟩ := ih (ls ++ (rowsWritten op.1 op.2).map Entry.row)
      refine ⟨rowsWritten op.1 op.2 ++ rows2, ?_⟩
      show applySnaps (snapshotFile op.1 op.2 (some ls)) rest = _
      rw [snapshotFile_some, hr2]
      simp [List.map_append]

theorem rowFor_device_cell (s : ReadingStore) (tplus dev : String) (ps : List (ℕ × Temp)) :
    ((rowFor s tplus dev ps).drop 1).head? = some dev := by
  simp [rowFor, fieldnamesOf, renderCell_rowData_device]

theorem rowFor_length (s : ReadingStore) (tplus dev : String) (ps : List (ℕ × Temp)) :
    (rowFor s tplus dev ps).length = (fieldnamesOf s).length := by
  simp [rowFor]

theorem fieldnamesOf_length (s : ReadingStore) :
    (fieldnamesOf s).length = 2 + (sortedProbeIds s).length := by
  simp [fieldnamesOf]
  omega

theorem sortedProbeIds_length_lt (s1 s2 : ReadingStore)
    (hsub : ∀ q ∈ sortedProbeIds s1, q ∈ sortedProbeIds s2)
    (p : ℕ) (hp2 : p ∈ sortedProbeIds s2) (hp1 : p ∉ sortedProbeIds s1) :
    (sortedProbeIds s1).length < (sortedProbeIds s2).length := by
  have hn1 : (sortedProbeIds s1).Nodup := (sortedProbeIds_sorted s1).nodup
  have hn2 : (sortedProbeIds s2).Nodup := (sortedProbeIds_sorted s2).nodup
  have hss : (sortedProbeIds s1).toFinset ⊂ (sortedProbeIds s2).toFinset := by
    constructor
    · intro x hx
      exact List.mem_toFinset.mpr (hsub x (List.mem_toFinset.mp hx))
    · intro hcon
      exact hp1 (List.mem_toFinset.mp (hcon (List.mem_toFinset.mpr hp2)))
  have := Finset.card_lt_card hss
  rwa [List.toFinset_card_of_nodup hn1, List.toFinset_card_of_nodup hn2] at this

theorem format_elapsed_time_3661 : format_elapsed_time 3661 = "1:01:01" := by
  have h1 : (⌊(3661:ℚ) / 3600⌋ : ℤ) = 1 := by norm_num
  have h2 : pythonMod 3661 3600 = 61 := by rw [pythonMod, h1]; norm_num
  have h3 : (⌊pythonMod (3661:ℚ) 3600 / 60⌋ : ℤ) = 1 := by rw [h2]; norm_num
  have h4 : (⌊(3661:ℚ) / 60⌋ : ℤ) = 61 := by norm_num
  have h5 : pythonMod 3661 60 = 1 := by rw [pythonMod, h4]; norm_num
  have h6 : (⌊pythonMod (3661:ℚ) 60⌋ : ℤ) = 1 := by rw [h5]; norm_num
  simp only [format_elapsed_time, h1, h3, h6]
  decide

theorem format_elapsed_time_59 : format_elapsed_time 59 = "0:00:59" := by
  have h1 : (⌊(59:ℚ) / 3600⌋ : ℤ) = 0 := by norm_num
  have h2 : pythonMod 59 3600 = 59 := by rw [pythonMod, h1]; norm_num
  have h3 : (⌊pythonMod (59:ℚ) 3600 / 60⌋ : ℤ) = 0 := by rw [h2]; norm_num
  have h4 : (⌊(59:ℚ) / 60⌋ : ℤ) = 0 := by norm_num
  have h5 : pythonMod 59 60 = 59 := by rw [pythonMod, h4]; norm_num
  have h6 : (⌊pythonMod (59:ℚ) 60⌋ : ℤ) = 59 := by rw [h5]; norm_num
  simp only [format_elapsed_time, h1, h3, h6]
  decide

/-!
Claim theorems.
-/

/-- C1: for every sequence of decoded updates applied to a fresh Reading
    Store, the final stored value for a given (device, probe) pair equals the
    last accepted update in the sequence, where a plain temperature update is
    always accepted and an alarm-bearing temperature update is accepted if
    and only if its temperature is non-null and strictly greater than zero. -/
theorem store_holds_last_accepted_update (us : List (String × Upd)) (d : String) (p : ℕ) :
    lookupReading (applyUpds [] us) d p = lastAccepted us d p := by
  rw [lookupReading_applyUpds]
  cases lastAccepted us d p <;> simp [lookupReading]

/-- C2 counterexample: a plain temperature update overwrites a stored
    positive reading with a negative value, so the store does not always
    hold a positive value and entries can be overwritten by non-positive
    values. -/
theorem store_positivity_counterexample :
    lookupReading (update_temp_probe [] "AA:BB" 5 1) "AA:BB" 1 = some 5
    ∧ lookupReading (update_temp_probe (update_temp_probe [] "AA:BB" 5 1) "AA:BB" (-1) 1)
        "AA:BB" 1 = some (-1)
    ∧ ¬ (0:Temp) < -1 := by
  refine ⟨?_, ?_, by norm_num⟩ <;>
    simp [update_temp_probe, ensureDevice, storeSet, setProbe, lookupReading, lookupProbe]

/-- C2 amended: only the alarm-bearing update path guards against invalid
    values — an alarm-bearing update either leaves every stored entry
    unchanged or stores its own non-null, strictly positive temperature at
    its target pair (plain updates replace unconditionally, see the
    counterexample). -/
theorem alarm_update_never_stores_nonpositive (s : ReadingStore) (addr : String)
    (t? a la : Option Temp) (q : ℕ) (d : String) (p : ℕ) :
    lookupReading (update_temp_probe_with_alarm s addr t? a q la) d p = lookupReading s d p
    ∨ ∃ t, t? = some t ∧ 0 < t ∧ d = addr ∧ p = q
        ∧ lookupReading (update_temp_probe_with_alarm s addr t? a q la) d p = some t := by
  have key := lookupReading_applyUpd s addr (.alarm t? a q la) d p
  simp only [applyUpd] at key
  rw [key]
  cases t? with
  | none => left; simp [acceptedValue]
  | some t =>
      by_cases hc : addr = d ∧ q = p ∧ 0 < t
      · right
        exact ⟨t, rfl, hc.2.2, hc.1.symm, hc.2.1.symm, by simp [acceptedValue, hc]⟩
      · left; simp [acceptedValue, hc]

/-- C3: if a new probe id appears in the store after the header has been
    committed to an existing file, the next snapshot computes its fieldnames
    from all current data, appends rows against the old header without
    rewriting it, and those fieldnames (and the row widths) mismatch the
    committed header. -/
theorem new_probe_mismatches_committed_header (s1 s2 : ReadingStore) (tplus : String)
    (p : ℕ) (ls : List Entry)
    (hsub : ∀ q ∈ sortedProbeIds s1, q ∈ sortedProbeIds s2)
    (hp2 : p ∈ sortedProbeIds s2) (hp1 : p ∉ sortedProbeIds s1) :
    fieldnamesOf s2 ≠ fieldnamesOf s1
    ∧ (fieldnamesOf s1).length < (fieldnamesOf s2).length
    ∧ (∀ r ∈ rowsWritten s2 tplus, r.length = (fieldnamesOf s2).length)
    ∧ snapshotFile s2 tplus (some (Entry.header (fieldnamesOf s1) :: ls))
        = some (Entry.header (fieldnamesOf s1) :: (ls ++ (rowsWritten s2 tplus).map Entry.row)) := by
  have hlen : (fieldnamesOf s1).length < (fieldnamesOf s2).length := by
    rw [fieldnamesOf_length, fieldnamesOf_length]
    have := sortedProbeIds_length_lt s1 s2 hsub p hp2 hp1
    omega
  refine ⟨?_, hlen, ?_, ?_⟩
  · intro he
    rw [he] at hlen
    omega
  · intro r hr
    obtain ⟨dp, _, rfl⟩ := List.mem_map.mp hr
    exact rowFor_length s2 tplus dp.1 dp.2
  · rw [snapshotFile_some]
    simp

/-- C4: for every snapshot write the column list is exactly `t_plus`,
    `device`, then one probe column per distinct probe id observed across
    all devices of the store, strictly ascending by id; a written row leaves
    the cell of a probe the device lacks empty. -/
theorem persister_column_list (s : ReadingStore) (tplus dev : String)
    (ps : List (ℕ × Temp)) (q : ℕ) :
    fieldnamesOf s = "t_plus" :: "device" :: (sortedProbeIds s).map probeField
    ∧ List.Sorted (· < ·) (sortedProbeIds s)
    ∧ (∀ x, x ∈ sortedProbeIds s ↔ ∃ d2 ps2, (d2, ps2) ∈ s ∧ ∃ v, (x, v) ∈ ps2)
    ∧ rowFor s tplus dev ps = (fieldnamesOf s).map (renderCell (rowData tplus dev ps))
    ∧ ((∀ v, (q, v) ∉ ps) → renderCell (rowData tplus dev ps) (probeField q) = "") := by
  refine ⟨rfl, sortedProbeIds_sorted s, ?_, rfl, ?_⟩
  · intro x
    rw [sortedProbeIds_mem, mem_allProbeIdsList]
  · intro h
    exact renderCell_rowData_probe_missing tplus dev ps q h

/-- C4 witness at a concrete store: probe 2 is observed on another device,
    and the row of a device lacking probe 2 leaves that field empty. -/
theorem persister_column_list_witness :
    (∀ v : Temp, ((2:ℕ), v) ∉ [((1:ℕ), (5:Temp))])
    ∧ renderCell (rowData "0:00:01" "AA" [((1:ℕ), (5:Temp))]) (probeField 2) = "" := by
  refine ⟨by simp, ?_⟩
  exact (persister_column_list [("AA", [((1:ℕ), (5:Temp))]), ("BB", [((2:ℕ), (7:Temp))])]
    "0:00:01" "AA" [((1:ℕ), (5:Temp))] 2).2.2.2.2 (by simp)

/-- C5: starting from a non-existent file, any sequence of snapshot calls
    either never creates the file or produces exactly one header line, first,
    followed only by data rows; starting from an existing file, snapshots
    only append data rows and never write a header. -/
theorem csv_header_written_once (ops : List (ReadingStore × String)) :
    (applySnaps none ops = none
      ∨ ∃ (fs : List String) (rows : List (List String)),
          applySnaps none ops = some (Entry.header fs :: rows.map Entry.row))
    ∧ ∀ ls : List Entry, ∃ rows : List (List String),
        applySnaps (some ls) ops = some (ls ++ rows.map Entry.row) := by
  constructor
  · induction ops with
    | nil => exact Or.inl rfl
    | cons op rest ih =>
        have hstep : applySnaps none (op :: rest)
            = applySnaps (snapshotFile op.1 op.2 none) rest := rfl
        rw [hstep, snapshotFile_none]
        by_cases h : rowsWritten op.1 op.2 = []
        · simpa [h] using ih
        · simp only [h, if_false]
          obtain ⟨rows2, hr2⟩ := applySnaps_some rest
            (Entry.header (fieldnamesOf op.1) :: (rowsWritten op.1 op.2).map Entry.row)
          right
          refine ⟨fieldnamesOf op.1, rowsWritten op.1 op.2 ++ rows2, ?_⟩
          rw [hr2]
          simp [List.map_append]
  · exact applySnaps_some ops

/-- C6: snapshotting is idempotent with respect to readings: it leaves the
    reading store unchanged, and two snapshots with no update in between
    write rows that agree in every column except the first (elapsed-time)
    column, whose cell is the elapsed-time string. -/
theorem snapshot_idempotent (st : St) (t1 t2 : String) :
    (print_temperature_readings t1 st).temp_data = st.temp_data
    ∧ (rowsWritten st.temp_data t1).map (fun r => r.drop 1)
        = (rowsWritten ((print_temperature_readings t1 st).temp_data) t2).map
            (fun r => r.drop 1)
    ∧ ∀ r ∈ rowsWritten st.temp_data t1, r.head? = some t1 := by
  refine ⟨rfl, ?_, ?_⟩
  · show (rowsWritten st.temp_data t1).map (fun r => r.drop 1)
        = (rowsWritten st.temp_data t2).map (fun r => r.drop 1)
    unfold rowsWritten
    rw [List.map_map, List.map_map]
    apply List.map_congr_left
    intro dp _
    exact rowFor_drop_one st.temp_data t1 t2 dp.1 dp.2
  · intro r hr
    obtain ⟨dp, _, rfl⟩ := List.mem_map.mp hr
    exact rowFor_head st.temp_data t1 dp.1 dp.2

/-- C6 witness: a concrete snapshot row starts with the elapsed-time cell. -/
theorem snapshot_idempotent_witness :
    (rowFor [("AA", [((1:ℕ), (5:Temp))])] "0:00:01" "AA" [((1:ℕ), (5:Temp))]).head?
      = some "0:00:01" := by
  refine (snapshot_idempotent
    ⟨[("AA", [((1:ℕ), (5:Temp))])], [], false, none, none⟩ "0:00:01" "0:00:02").2.2
    (rowFor [("AA", [((1:ℕ), (5:Temp))])] "0:00:01" "AA" [((1:ℕ), (5:Temp))]) ?_
  simp [rowsWritten]

/-- C7: for every non-negative elapsed duration in seconds the formatter
    produces `H:MM:SS` — unpadded hours, then minutes and seconds each
    zero-padded to two digits, the three components being the exact
    hour/minute/second decomposition of the duration; in particular 3661
    seconds formats as `1:01:01` and 59 seconds as `0:00:59`. -/
theorem elapsed_time_format (e : ℚ) (he : 0 ≤ e) :
    (∃ h m s : ℤ, 0 ≤ h ∧ 0 ≤ m ∧ m < 60 ∧ 0 ≤ s ∧ s < 60 ∧
      3600 * h + 60 * m + s = ⌊e⌋ ∧
      format_elapsed_time e = toString h ++ ":" ++ pad2 m ++ ":" ++ pad2 s ∧
      (pad2 m).length = 2 ∧ (pad2 s).length = 2)
    ∧ format_elapsed_time 3661 = "1:01:01"
    ∧ format_elapsed_time 59 = "0:00:59" :=
  ⟨format_elapsed_time_decomposition e he, format_elapsed_time_3661, format_elapsed_time_59⟩

/-- C7 witness: the formatter applied at the concrete duration 3661. -/
theorem elapsed_time_format_witness :
    (0:ℚ) ≤ 3661
    ∧ ((∃ h m s : ℤ, 0 ≤ h ∧ 0 ≤ m ∧ m < 60 ∧ 0 ≤ s ∧ s < 60 ∧
        3600 * h + 60 * m + s = ⌊(3661:ℚ)⌋ ∧
        format_elapsed_time 3661 = toString h ++ ":" ++ pad2 m ++ ":" ++ pad2 s ∧
        (pad2 m).length = 2 ∧ (pad2 s).length = 2)
      ∧ format_elapsed_time 3661 = "1:01:01"
      ∧ format_elapsed_time 59 = "0:00:59") :=
  ⟨by norm_num, elapsed_time_format 3661 (by norm_num)⟩

/-- C8: once a discovery scan reports found, the loop is in monitoring for
    the rest of the run — every later iteration performs a monitoring scan,
    no discovery scan is ever performed again, and the phase never returns
    to searching. -/
theorem lock_never_returns_to_searching (pre post : List Bool) :
    runPhase Phase.searching (pre ++ true :: post) = Phase.monitoring
    ∧ runEvents Phase.searching (pre ++ true :: post)
        = runEvents Phase.searching (pre ++ [true])
          ++ post.map (fun _ => LoopEvent.monitorScan)
    ∧ LoopEvent.discoveryScan ∉ runEvents Phase.monitoring post := by
  have hsplit : pre ++ true :: post = (pre ++ [true]) ++ post := by simp
  have hlock := runPhase_after_found pre
  refine ⟨?_, ?_, ?_⟩
  · rw [hsplit, runPhase_append, hlock, runPhase_monitoring]
  · rw [hsplit, runEvents_append, hlock, runEvents_monitoring]
  · rw [runEvents_monitoring]
    intro hmem
    obtain ⟨_, _, he⟩ := List.mem_map.mp hmem
    exact LoopEvent.noConfusion he

/-- C9 counterexample: a monitoring cycle in which the scanning facility
    errors after having delivered an advertisement is not a no-op on the
    Reading Store — the delivered reading is retained. -/
theorem scan_error_not_noop_counterexample :
    (scan_specific_device ⟨[], [], false, none, none⟩ "AA"
        (ScanOutcome.err [⟨"AA", "H5055", [Upd.plain 5 1]⟩])).temp_data
      ≠ ([] : ReadingStore) := by
  simp [scan_specific_device, process_advertisement, applyUpd, update_temp_probe,
    ensureDevice, storeSet, setProbe]

/-- C9 amended: a scanning-facility error is caught, never fatal: discovery
    returns false and its loop keeps searching, a monitoring iteration stays
    in monitoring, and a monitoring cycle whose error precedes any delivery
    is a no-op on the Reading Store (readings delivered before a mid-scan
    error are retained, see the counterexample). -/
theorem scan_error_is_caught (st : St) (ads : List Adv) (target : String) :
    (scan_for_devices st (ScanOutcome.err ads)).2 = false
    ∧ scan_specific_device st target (ScanOutcome.err []) = st
    ∧ (scan_for_devices st (ScanOutcome.err [])).1.temp_data = st.temp_data
    ∧ (loopStep Phase.searching (scan_for_devices st (ScanOutcome.err ads)).2).1
        = Phase.searching
    ∧ (loopStep Phase.monitoring false).1 = Phase.monitoring := by
  exact ⟨rfl, rfl, rfl, rfl, rfl⟩

/-- C10: during discovery every received advertisement — whatever its device
    type and address — has its decoded probe updates merged into the Reading
    Store, and every device with at least one reading yields a snapshot row
    carrying its address, so snapshots can include devices other than the
    locked target. -/
theorem all_advertisements_merged (st : St) (ads : List Adv) (s : ReadingStore)
    (tplus d : String) (ps : List (ℕ × Temp)) :
    (scan_for_devices st (ScanOutcome.ok ads)).1.temp_data
        = applyUpds st.temp_data (ads.flatMap fun a => a.updates.map fun u => (a.address, u))
    ∧ ((d, ps) ∈ s → ps ≠ [] →
        ∃ r ∈ rowsWritten s tplus, (r.drop 1).head? = some d) := by
  constructor
  · show (ads.foldl process_advertisement { st with processed := [] }).temp_data = _
    rw [foldl_process_temp_data]
  · intro hmem hne
    refine ⟨rowFor s tplus d ps, ?_, rowFor_device_cell s tplus d ps⟩
    unfold rowsWritten
    apply List.mem_map.mpr
    refine ⟨(d, ps), List.mem_filter.mpr ⟨hmem, ?_⟩, rfl⟩
    simp [List.isEmpty_iff, hne]

/-- C10 witness: with an H5055 device and a device of another type both
    observed, the store and the snapshot rows include the non-target
    device. -/
theorem all_advertisements_merged_witness :
    ∃ r ∈ rowsWritten [("AA", [((1:ℕ), (5:Temp))]), ("BB", [((2:ℕ), (7:Temp))])] "0:00:01",
      (r.drop 1).head? = some "BB" := by
  refine (all_advertisements_merged ⟨[], [], false, none, none⟩
    [⟨"AA", "H5055", [Upd.plain 5 1]⟩, ⟨"BB", "H5072", [Upd.plain 7 2]⟩]
    [("AA", [((1:ℕ), (5:Temp))]), ("BB", [((2:ℕ), (7:Temp))])]
    "0:00:01" "BB" [((2:ℕ), (7:Temp))]).2 (by simp) (by simp)

/-- C1 witness: the store/last-accepted agreement evaluated on a concrete
    update sequence (a plain update overridden by an accepted alarm update,
    with a rejected alarm update in between). -/
theorem store_holds_last_accepted_update_witness :
    lookupReading
        (applyUpds [] [("AA", Upd.plain 5 1), ("AA", Upd.alarm (some (-2)) none 1 none),
          ("AA", Upd.alarm (some 7) (some 90) 1 none)]) "AA" 1
      = lastAccepted [("AA", Upd.plain 5 1), ("AA", Upd.alarm (some (-2)) none 1 none),
          ("AA", Upd.alarm (some 7) (some 90) 1 none)] "AA" 1 :=
  store_holds_last_accepted_update _ "AA" 1

/-- C2 witness: the amended alarm-update guarantee at a concrete input. -/
theorem alarm_update_never_stores_nonpositive_witness :
    lookupReading (update_temp_probe_with_alarm [] "AA" (some 5) none 1 none) "AA" 1
        = lookupReading [] "AA" 1
    ∨ ∃ t, (some (5:Temp)) = some t ∧ 0 < t ∧ "AA" = "AA" ∧ (1:ℕ) = 1
        ∧ lookupReading (update_temp_probe_with_alarm [] "AA" (some 5) none 1 none) "AA" 1
            = some t :=
  alarm_update_never_stores_nonpositive [] "AA" (some 5) none none 1 "AA" 1

/-- C3 witness: with the header committed for a store observing only probe 1,
    a store now also observing probe 2 computes strictly wider fieldnames. -/
theorem new_probe_mismatches_committed_header_witness :
    (fieldnamesOf [("AA", [((1:ℕ), (5:Temp))])]).length
      < (fieldnamesOf [("AA", [((1:ℕ), (5:Temp))]), ("BB", [((2:ℕ), (7:Temp))])]).length :=
  (new_probe_mismatches_committed_header [("AA", [((1:ℕ), (5:Temp))])]
    [("AA", [((1:ℕ), (5:Temp))]), ("BB", [((2:ℕ), (7:Temp))])] "0:00:01" 2 []
    (by decide) (by decide) (by decide)).2.1

/-- C5 witness: a concrete snapshot sequence from a non-existent file. -/
theorem csv_header_written_once_witness :
    (applySnaps none [([("AA", [((1:ℕ), (5:Temp))])], "0:00:01")] = none
      ∨ ∃ (fs : List String) (rows : List (List String)),
          applySnaps none [([("AA", [((1:ℕ), (5:Temp))])], "0:00:01")]
            = some (Entry.header fs :: rows.map Entry.row))
    ∧ ∀ ls : List Entry, ∃ rows : List (List String),
        applySnaps (some ls) [([("AA", [((1:ℕ), (5:Temp))])], "0:00:01")]
          = some (ls ++ rows.map Entry.row) :=
  csv_header_written_once [([("AA", [((1:ℕ), (5:Temp))])], "0:00:01")]

/-- C8 witness: the lock property evaluated on a concrete run (no failed
    attempt, then a successful one, then two monitoring iterations). -/
theorem lock_never_returns_to_searching_witness :
    runPhase Phase.searching ([false] ++ true :: [true, false]) = Phase.monitoring
    ∧ runEvents Phase.searching ([false] ++ true :: [true, false])
        = runEvents Phase.searching ([false] ++ [true])
          ++ [true, false].map (fun _ => LoopEvent.monitorScan)
    ∧ LoopEvent.discoveryScan ∉ runEvents Phase.monitoring [true, false] :=
  lock_never_returns_to_searching [false] [true, false]

/-- C9 witness: the caught-error behaviour at a concrete state and error. -/
theorem scan_error_is_caught_witness :
    (scan_for_devices ⟨[], [], false, none, none⟩
        (ScanOutcome.err [⟨"AA", "H5055", [Upd.plain 5 1]⟩])).2 = false
    ∧ scan_specific_device ⟨[], [], false, none, none⟩ "AA" (ScanOutcome.err [])
        = ⟨[], [], false, none, none⟩
    ∧ (scan_for_devices ⟨[], [], false, none, none⟩ (ScanOutcome.err [])).1.temp_data
        = (⟨[], [], false, none, none⟩ : St).temp_data
    ∧ (loopStep Phase.searching
        (scan_for_devices ⟨[], [], false, none, none⟩
          (ScanOutcome.err [⟨"AA", "H5055", [Upd.plain 5 1]⟩])).2).1 = Phase.searching
    ∧ (loopStep Phase.monitoring false).1 = Phase.monitoring :=
  scan_error_is_caught ⟨[], [], false, none, none⟩ [⟨"AA", "H5055", [Upd.plain 5 1]⟩] "AA"

end Govee
